import Mathlib

/-!
Verification of the week1-todo-app task store (`src/week1-todo-app/main.py`).

The Python `TodoApp` class keeps two synchronized views of the task
collection: `tasks_list` (a list of task records, insertion order) and
`tasks_dict` (a dict from id to the same record).  We embed tasks as a
record type, the Python dict as an association list with dict semantics
(lookup by first matching key, insert replaces in place or appends,
delete filters the key out), and the JSON file as a small JSON AST.
Python ints are modelled as `Int`; the float `completion_rate` is
modelled as `ℚ` (exact division, as the spec's formula states it).
-/

namespace Todo

/-- One task record, as built by `add_task` in main.py:
`{"id": …, "title": …, "priority": …, "completed": …, "created_at": …}`. -/
structure Task where
  id : Int
  title : String
  priority : String
  completed : Bool
  created_at : String
deriving DecidableEq, Repr

/-- The in-memory state of `TodoApp`: `tasks_list`, `tasks_dict`, `next_id`.
The dict is an association list with Python-dict key semantics. -/
structure TodoApp where
  tasks_list : List Task
  tasks_dict : List (Int × Task)
  next_id : Int
deriving DecidableEq, Repr

/-- The state set up by `__init__` before `load_tasks` runs:
empty list, empty dict, `next_id = 1`. -/
def emptyApp : TodoApp := ⟨[], [], 1⟩

/-- Keys of the dict, in insertion order (Python dict key view). -/
def dictKeys (d : List (Int × Task)) : List Int := d.map Prod.fst

/-- `tasks_dict.get(k)`: first entry with matching key, if any. -/
def dictLookup (d : List (Int × Task)) (k : Int) : Option Task :=
  (d.find? (fun kv => decide (kv.1 = k))).map Prod.snd

/-- `tasks_dict[k] = v`: replace in place if the key exists, else append
(Python dicts keep the original position of an updated key). -/
def dictInsert (d : List (Int × Task)) (k : Int) (v : Task) : List (Int × Task) :=
  if k ∈ dictKeys d then d.map (fun kv => if kv.1 = k then (k, v) else kv)
  else d ++ [(k, v)]

/-- `del tasks_dict[k]`: remove the entry for `k`, keep the rest in order. -/
def dictErase (d : List (Int × Task)) (k : Int) : List (Int × Task) :=
  d.filter (fun kv => decide (kv.1 ≠ k))

/-- `add_task(title, priority)` (main.py lines 88-119): build the task with
id `next_id`, append to `tasks_list`, insert into `tasks_dict`, bump
`next_id`, return the task.  `datetime.now()` is passed in as `now`. -/
def add_task (st : TodoApp) (title priority now : String) : TodoApp × Task :=
  let task : Task := ⟨st.next_id, title, priority, false, now⟩
  (⟨st.tasks_list ++ [task], dictInsert st.tasks_dict st.next_id task, st.next_id + 1⟩, task)

/-- `find_task_by_id` (main.py line 121-138): `tasks_dict.get(task_id)`. -/
def find_task_by_id (st : TodoApp) (task_id : Int) : Option Task :=
  dictLookup st.tasks_dict task_id

/-- The mutation `task["completed"] = True` applied to one record. -/
def setCompleted (t : Task) : Task := ⟨t.id, t.title, t.priority, true, t.created_at⟩

/-- `complete_task(task_id)` (main.py lines 187-211).  In Python the record
found through `tasks_dict` is mutated in place and `tasks_list` holds the
same object, so the write is visible through both views; in the embedding
we update the record under its id in both views, which coincides with the
source's behaviour on stores satisfying the id-consistency invariant.
The returned Bool is `true` for the success branch, `false` for the
"task not found" message. -/
def complete_task (st : TodoApp) (task_id : Int) : TodoApp × Bool :=
  match find_task_by_id st task_id with
  | some _ =>
      (⟨st.tasks_list.map (fun t => if t.id = task_id then setCompleted t else t),
        st.tasks_dict.map (fun kv => if kv.1 = task_id then (kv.1, setCompleted kv.2) else kv),
        st.next_id⟩, true)
  | none => (st, false)

/-- `delete_task(task_id)` (main.py lines 213-246): if `task_id in
tasks_dict`, delete from the dict and rebuild the list by filtering the
id out; else report "task not found" (`false`). -/
def delete_task (st : TodoApp) (task_id : Int) : TodoApp × Bool :=
  if task_id ∈ dictKeys st.tasks_dict then
    (⟨st.tasks_list.filter (fun t => decide (t.id ≠ task_id)),
      dictErase st.tasks_dict task_id,
      st.next_id⟩, true)
  else (st, false)

/-- The dict literal `{"高": 1, "中": 2, "低": 3}` used as the sort key in
`list_tasks` and `sort_by_priority`; lookup of any other key raises
`KeyError`, modelled by `none`. -/
def priority_order (p : String) : Option Nat :=
  if p = "高" then some 1 else if p = "中" then some 2 else if p = "低" then some 3 else none

/-- The numeric sort key of a task; meaningful only when its priority is
one of the three allowed values (the sort is only reached when every key
lookup succeeds). -/
def taskRank (t : Task) : Nat := (priority_order t.priority).getD 0

/-- Comparison on sort keys; Python's `sorted` is stable with respect to
this preorder. -/
def taskLe (a b : Task) : Prop := taskRank a ≤ taskRank b

instance : DecidableRel taskLe := fun a b => inferInstanceAs (Decidable (taskRank a ≤ taskRank b))

instance : IsTotal Task taskLe := ⟨fun a b => Nat.le_total (taskRank a) (taskRank b)⟩

instance : IsTrans Task taskLe := ⟨fun _ _ _ => Nat.le_trans⟩

/-- The `tasks_to_show` local of `list_tasks`: the whole list, or the
tasks with the requested priority. -/
def tasksToShow (st : TodoApp) (filter_by : Option String) : List Task :=
  match filter_by with
  | none => st.tasks_list
  | some p => st.tasks_list.filter (fun t => decide (t.priority = p))

/-- `list_tasks(filter_by)` (main.py lines 140-185), returning the sequence
of tasks it displays.  An empty store returns early with nothing shown;
otherwise the filtered tasks are sorted by `priority_order` key (CPython
precomputes all keys, so one missing key — `none` here — raises
`KeyError` before displaying, modelled by `none`).  Python's Timsort is
stable; `List.insertionSort` with `taskLe` computes the same (unique)
stable sort. -/
def list_tasks (st : TodoApp) (filter_by : Option String) : Option (List Task) :=
  if st.tasks_list.isEmpty then some []
  else
    let shown := tasksToShow st filter_by
    if shown.all (fun t => (priority_order t.priority).isSome) then
      some (List.insertionSort taskLe shown)
    else none

/-- `sort_by_priority()` (main.py lines 248-263): sort the whole list by
the same key, without the empty-store early return; `none` models the
uncaught `KeyError` on an out-of-range priority. -/
def sort_by_priority (st : TodoApp) : Option (List Task) :=
  if st.tasks_list.all (fun t => (priority_order t.priority).isSome) then
    some (List.insertionSort taskLe st.tasks_list)
  else none

/-- The dict returned by `get_statistics` (main.py lines 265-281);
`completion_rate` is exact rational arithmetic standing for the Python
float expression `completed / total * 100`. -/
structure Stats where
  total : Nat
  completed : Nat
  pending : Nat
  completion_rate : ℚ
deriving DecidableEq, Repr

/-- `get_statistics()` (main.py lines 265-281). -/
def get_statistics (st : TodoApp) : Stats :=
  let total := st.tasks_list.length
  let completed := st.tasks_list.countP (fun t => t.completed)
  ⟨total, completed, total - completed,
    if total > 0 then (completed : ℚ) / (total : ℚ) * 100 else 0⟩

/-- The ids of `tasks_list`, in order. -/
def listIds (st : TodoApp) : List Int := st.tasks_list.map Task.id

/-- The consistency invariant between the two views: both hold exactly the
same set of ids, each id appearing exactly once in each. -/
def consistent (st : TodoApp) : Prop :=
  (∀ i : Int, i ∈ dictKeys st.tasks_dict ↔ i ∈ listIds st) ∧
    (listIds st).Nodup ∧ (dictKeys st.tasks_dict).Nodup

/-- The full store invariant: consistency plus `next_id` strictly above
every present id. -/
def storeInv (st : TodoApp) : Prop :=
  consistent st ∧ ∀ i ∈ listIds st, i < st.next_id

/-- The JSON values `json.dump` / `json.load` exchange for this file
(the five task fields use only ints, strings and booleans). -/
inductive Json where
  | num (n : Int)
  | str (s : String)
  | bool (b : Bool)
  | arr (elems : List Json)
  | obj (fields : List (String × Json))

/-- Field access `d[k]` on a JSON object, as an option. -/
def objLookup (fields : List (String × Json)) (k : String) : Option Json :=
  (fields.find? (fun kv => decide (kv.1 = k))).map Prod.snd

/-- The JSON object `json.dump` writes for one task (main.py line 83
serializes `tasks_list`; the dict literal of lines 104-110 fixes the
field order). -/
def taskToJson (t : Task) : Json :=
  Json.obj [("id", Json.num t.id), ("title", Json.str t.title),
            ("priority", Json.str t.priority), ("completed", Json.bool t.completed),
            ("created_at", Json.str t.created_at)]

/-- Reading one loaded JSON element back as a task record.  The source
keeps the raw dict and reads fields lazily (only `"id"` during load);
an element that is not a well-formed task record makes the loaded store
fail on first field access, which `decodeTask` fronts to load time. -/
def decodeTask (j : Json) : Option Task :=
  match j with
  | Json.obj fields =>
      match objLookup fields "id", objLookup fields "title", objLookup fields "priority",
            objLookup fields "completed", objLookup fields "created_at" with
      | some (Json.num i), some (Json.str ti), some (Json.str p),
        some (Json.bool c), some (Json.str ca) => some ⟨i, ti, p, c, ca⟩
      | _, _, _, _, _ => none
  | _ => none

/-- `save_tasks()` (main.py lines 71-86): the JSON array written to the
file, `tasks_list` in order. -/
def save_tasks (st : TodoApp) : Json := Json.arr (st.tasks_list.map taskToJson)

/-- The dict rebuild loop of `load_tasks` (main.py lines 58-59). -/
def buildDict (tasks : List Task) : List (Int × Task) :=
  tasks.foldl (fun d t => dictInsert d t.id t) []

/-- `max(task["id"] for task in tasks_list)` on a nonempty list. -/
def maxId : List Task → Int
  | [] => 0
  | t :: ts => ts.foldl (fun m u => max m u.id) t.id

/-- `load_tasks()` run at construction (main.py lines 40-69).  The input
models the file: `none` when the file does not exist, `some (Except.error ())`
when reading or parsing raises `JSONDecodeError`/`IOError` (caught: the
store is reset to empty and the failure is printed — the `Bool` is this
reported flag), `some (Except.ok j)` when `json.load` yields `j`.  The
result is `Except.error ()` when load raises an exception that the
`except` clause does not catch: iterating a non-array value
(`TypeError`) or reading `task["id"]` from an ill-formed element
(`TypeError`/`KeyError`). -/
def load_tasks (file : Option (Except Unit Json)) : Except Unit (TodoApp × Bool) :=
  match file with
  | none => Except.ok (emptyApp, false)
  | some (Except.error _) => Except.ok (emptyApp, true)
  | some (Except.ok j) =>
      match j with
      | Json.arr elems =>
          match elems.mapM decodeTask with
          | some tasks =>
              Except.ok (⟨tasks, buildDict tasks,
                if tasks.isEmpty then 1 else maxId tasks + 1⟩, false)
          | none => Except.error ()
      | _ => Except.error ()

/-- One mutating store operation, as invoked on the store API. -/
inductive Op where
  | add (title priority now : String)
  | complete (task_id : Int)
  | delete (task_id : Int)
deriving DecidableEq, Repr

/-- The store after one operation. -/
def applyOp (st : TodoApp) : Op → TodoApp
  | Op.add title priority now => (add_task st title priority now).1
  | Op.complete i => (complete_task st i).1
  | Op.delete i => (delete_task st i).1

/-- The store after a sequence of operations. -/
def applyOps (st : TodoApp) (ops : List Op) : TodoApp := ops.foldl applyOp st

/-- The ids handed out by the `add` operations of a run, in order. -/
def assignedIds (st : TodoApp) : List Op → List Int
  | [] => []
  | op :: ops =>
      match op with
      | Op.add _ _ _ => st.next_id :: assignedIds (applyOp st op) ops
      | _ => assignedIds (applyOp st op) ops

/-- Python's `str.strip()` with no argument: drop leading and trailing
whitespace. -/
def pyStrip (s : String) : String :=
  ⟨((s.data.dropWhile Char.isWhitespace).reverse.dropWhile Char.isWhitespace).reverse⟩

/-- The priority the menu-1 branch of `run()` settles on:
`input("...").strip() or "中"` (main.py line 308). -/
def cliPriority (rawPriority : String) : String :=
  if pyStrip rawPriority = "" then "中" else pyStrip rawPriority

/-- The menu-1 branch of `run()` (main.py lines 303-312): strip the
title, reject it when empty; default a blank priority to `"中"` and
reject anything outside the three allowed values; only then call
`add_task`. -/
def cliAdd (st : TodoApp) (rawTitle rawPriority now : String) : TodoApp :=
  if pyStrip rawTitle = "" then st
  else if cliPriority rawPriority = "高" ∨ cliPriority rawPriority = "中" ∨
      cliPriority rawPriority = "低" then
    (add_task st (pyStrip rawTitle) (cliPriority rawPriority) now).1
  else st

/-- One interaction of the CLI loop that can touch the store. -/
inductive CliOp where
  | add (rawTitle rawPriority now : String)
  | complete (task_id : Int)
  | delete (task_id : Int)
deriving DecidableEq, Repr

/-- The store after one CLI interaction. -/
def cliStep (st : TodoApp) : CliOp → TodoApp
  | CliOp.add t p n => cliAdd st t p n
  | CliOp.complete i => (complete_task st i).1
  | CliOp.delete i => (delete_task st i).1

/-- The store after a sequence of CLI interactions. -/
def cliRun (st : TodoApp) (ops : List CliOp) : TodoApp := ops.foldl cliStep st

/-! ### Concrete stores used to instantiate the theorems -/

def demoTask1 : Task := ⟨1, "Buy milk", "高", false, "2025-01-01 10:00:00"⟩

def demoTask2 : Task := ⟨2, "Write report", "低", true, "2025-01-01 10:01:00"⟩

def demoTask3 : Task := ⟨3, "Call dentist", "中", false, "2025-01-01 10:02:00"⟩

/-- A store holding three tasks, as after three adds (one completed). -/
def demoApp : TodoApp :=
  ⟨[demoTask1, demoTask2, demoTask3],
   [(1, demoTask1), (2, demoTask2), (3, demoTask3)], 4⟩

/-- A task whose priority is outside the three allowed values, as could be
loaded from a hand-edited file. -/
def badTask : Task := ⟨1, "x", "urgent", false, "2025-01-01 10:00:00"⟩

/-- A store containing `badTask`. -/
def badApp : TodoApp := ⟨[badTask], [(1, badTask)], 2⟩

/-! ### Theorems -/

/-- C6: deleting an id that is not present leaves the store unchanged
(ordered list, dict and `next_id`) and signals "task not found". -/
theorem delete_task_notfound (st : TodoApp) (i : Int)
    (h : i ∉ dictKeys st.tasks_dict) : delete_task st i = (st, false) := by
  simp [delete_task, h]

theorem delete_task_notfound_witness :
    (1 : Int) ∉ dictKeys emptyApp.tasks_dict ∧ delete_task emptyApp 1 = (emptyApp, false) :=
  ⟨by decide, delete_task_notfound emptyApp 1 (by decide)⟩

/-- C8: `get_statistics` returns the task count, the completed count,
`pending` with `pending + completed = total`, and a completion rate of
`completed / total * 100` guarded to `0` on an empty store. -/
theorem get_statistics_spec (st : TodoApp) :
    (get_statistics st).total = st.tasks_list.length ∧
    (get_statistics st).completed = (st.tasks_list.filter (fun t => t.completed)).length ∧
    (get_statistics st).pending + (get_statistics st).completed = (get_statistics st).total ∧
    ((get_statistics st).total = 0 → (get_statistics st).completion_rate = 0) ∧
    ((get_statistics st).total ≠ 0 →
      (get_statistics st).completion_rate =
        ((get_statistics st).completed : ℚ) / ((get_statistics st).total : ℚ) * 100) ∧
    get_statistics emptyApp = ⟨0, 0, 0, 0⟩ := by
  refine ⟨rfl, ?_, ?_, ?_, ?_, rfl⟩
  · simp [get_statistics, List.countP_eq_length_filter]
  · exact Nat.sub_add_cancel (List.countP_le_length _)
  · intro h
    simp only [get_statistics] at h ⊢
    simp [h]
  · intro h
    simp only [get_statistics] at h ⊢
    simp [Nat.pos_of_ne_zero h]

theorem get_statistics_spec_witness :
    (get_statistics demoApp).completion_rate =
      ((get_statistics demoApp).completed : ℚ) / ((get_statistics demoApp).total : ℚ) * 100 :=
  (get_statistics_spec demoApp).2.2.2.2.1 (by decide)

/-- C7 counterexample: a file whose content is valid JSON but not an
array of task records (here the JSON number `5`) makes `load_tasks`
raise an error that its `except (json.JSONDecodeError, IOError)` clause
does not catch — load does not recover for every file content. -/
theorem load_tasks_uncaught_on_nonarray :
    load_tasks (some (Except.ok (Json.num 5))) = Except.error () := rfl

/-- C7 amended: `load_tasks` catches read/parse failures at its call
site: a file with invalid JSON text yields an empty store with the error
reported, and an absent file yields an empty store silently. -/
theorem load_tasks_catches_parse_failure :
    load_tasks (some (Except.error ())) = Except.ok (emptyApp, true) ∧
    load_tasks none = Except.ok (emptyApp, false) :=
  ⟨rfl, rfl⟩

/-- Decoding inverts encoding for every task record. -/
theorem decodeTask_taskToJson (t : Task) : decodeTask (taskToJson t) = some t := by
  cases t
  rfl

theorem mapM_loop_decodeTask (l acc : List Task) :
    List.mapM.loop decodeTask (l.map taskToJson) acc = some (acc.reverse ++ l) := by
  induction l generalizing acc with
  | nil => simp [List.mapM.loop]
  | cons t ts ih => simp [List.mapM.loop, decodeTask_taskToJson, ih]

theorem mapM_decodeTask (l : List Task) :
    (l.map taskToJson).mapM decodeTask = some l := by
  simp [List.mapM, mapM_loop_decodeTask]

/-- C2: saving a store and loading the result reproduces the ordered
task sequence exactly — order and every field of every task survive the
JSON round-trip. -/
theorem save_load_roundtrip (st : TodoApp) :
    ∃ st' reported, load_tasks (some (Except.ok (save_tasks st))) = Except.ok (st', reported) ∧
      st'.tasks_list = st.tasks_list := by
  have h : load_tasks (some (Except.ok (save_tasks st))) =
      Except.ok (⟨st.tasks_list, buildDict st.tasks_list,
        if st.tasks_list.isEmpty then 1 else maxId st.tasks_list + 1⟩, false) := by
    simp [load_tasks, save_tasks, mapM_decodeTask, mapM_loop_decodeTask]
  exact ⟨_, _, h, rfl⟩

/-! ### The dual-view consistency invariant under mutation -/

theorem dictKeys_insert (d : List (Int × Task)) (k : Int) (v : Task) :
    dictKeys (dictInsert d k v) =
      if k ∈ dictKeys d then dictKeys d else dictKeys d ++ [k] := by
  unfold dictInsert
  split
  · simp only [dictKeys, List.map_map]
    refine List.map_congr_left ?_
    intro kv _
    by_cases hk : kv.1 = k <;> simp [hk]
  · simp [dictKeys]

theorem dictKeys_erase (d : List (Int × Task)) (k : Int) :
    dictKeys (dictErase d k) = (dictKeys d).filter (fun i => decide (i ≠ k)) := by
  unfold dictErase dictKeys
  rw [List.filter_map]
  rfl

theorem dictKeys_setCompleted (d : List (Int × Task)) (k : Int) :
    dictKeys (d.map (fun kv => if kv.1 = k then (kv.1, setCompleted kv.2) else kv)) =
      dictKeys d := by
  simp only [dictKeys, List.map_map]
  refine List.map_congr_left ?_
  intro kv _
  by_cases hk : kv.1 = k <;> simp [hk]

theorem ids_filter_ne (l : List Task) (i : Int) :
    (l.filter (fun t => decide (t.id ≠ i))).map Task.id =
      (l.map Task.id).filter (fun j => decide (j ≠ i)) := by
  induction l with
  | nil => rfl
  | cons t ts ih =>
      simp only [List.map_cons, List.filter_cons]
      by_cases h : t.id = i
      · rw [if_neg (by simp [h]), if_neg (by simp [h])]
        exact ih
      · rw [if_pos (by simp [h]), if_pos (by simp [h]), List.map_cons, ih]

theorem listIds_add (st : TodoApp) (title priority now : String) :
    listIds (add_task st title priority now).1 = listIds st ++ [st.next_id] := by
  simp [add_task, listIds]

theorem listIds_complete_map (l : List Task) (k : Int) :
    (l.map (fun t => if t.id = k then setCompleted t else t)).map Task.id = l.map Task.id := by
  rw [List.map_map]
  refine List.map_congr_left ?_
  intro t _
  by_cases hk : t.id = k <;> simp [hk, setCompleted]

theorem storeInv_add (st : TodoApp) (h : storeInv st) (title priority now : String) :
    storeInv (add_task st title priority now).1 := by
  obtain ⟨⟨hiff, hnl, hnd⟩, hlt⟩ := h
  have hnidL : st.next_id ∉ listIds st := fun hm => absurd (hlt _ hm) (lt_irrefl _)
  have hnidD : st.next_id ∉ dictKeys st.tasks_dict := fun hm => hnidL ((hiff _).1 hm)
  have hkeys : dictKeys (add_task st title priority now).1.tasks_dict =
      dictKeys st.tasks_dict ++ [st.next_id] := by
    show dictKeys (dictInsert st.tasks_dict st.next_id _) = _
    rw [dictKeys_insert, if_neg hnidD]
  refine ⟨⟨?_, ?_, ?_⟩, ?_⟩
  · intro i
    rw [hkeys, listIds_add]
    simp only [List.mem_append, List.mem_singleton]
    exact or_congr (hiff i) Iff.rfl
  · rw [listIds_add]
    simp [List.nodup_append, hnl, hnidL]
  · rw [hkeys]
    simp [List.nodup_append, hnd, hnidD]
  · intro i hi
    rw [listIds_add] at hi
    show i < st.next_id + 1
    rcases List.mem_append.1 hi with hi | hi
    · exact lt_trans (hlt _ hi) (lt_add_one _)
    · simp only [List.mem_singleton] at hi
      omega

theorem storeInv_complete (st : TodoApp) (h : storeInv st) (i : Int) :
    storeInv (complete_task st i).1 := by
  obtain ⟨⟨hiff, hnl, hnd⟩, hlt⟩ := h
  unfold complete_task
  cases hfind : find_task_by_id st i with
  | none => exact ⟨⟨hiff, hnl, hnd⟩, hlt⟩
  | some t =>
      have hids : listIds (⟨st.tasks_list.map (fun t => if t.id = i then setCompleted t else t),
          st.tasks_dict.map (fun kv => if kv.1 = i then (kv.1, setCompleted kv.2) else kv),
          st.next_id⟩ : TodoApp) = listIds st := listIds_complete_map st.tasks_list i
      refine ⟨⟨?_, ?_, ?_⟩, ?_⟩
      · intro j
        rw [hids]
        show j ∈ dictKeys (st.tasks_dict.map _) ↔ _
        rw [dictKeys_setCompleted]
        exact hiff j
      · rw [hids]; exact hnl
      · show (dictKeys (st.tasks_dict.map _)).Nodup
        rw [dictKeys_setCompleted]; exact hnd
      · intro j hj
        rw [hids] at hj
        exact hlt _ hj

theorem storeInv_delete (st : TodoApp) (h : storeInv st) (i : Int) :
    storeInv (delete_task st i).1 := by
  obtain ⟨⟨hiff, hnl, hnd⟩, hlt⟩ := h
  unfold delete_task
  split
  · have hids : listIds (⟨st.tasks_list.filter (fun t => decide (t.id ≠ i)),
        dictErase st.tasks_dict i, st.next_id⟩ : TodoApp) =
        (listIds st).filter (fun j => decide (j ≠ i)) := ids_filter_ne st.tasks_list i
    refine ⟨⟨?_, ?_, ?_⟩, ?_⟩
    · intro j
      rw [hids]
      show j ∈ dictKeys (dictErase st.tasks_dict i) ↔ _
      rw [dictKeys_erase]
      simp only [List.mem_filter, decide_eq_true_eq]
      exact and_congr_left (fun _ => hiff j)
    · rw [hids]; exact hnl.filter _
    · show (dictKeys (dictErase st.tasks_dict i)).Nodup
      rw [dictKeys_erase]; exact hnd.filter _
    · intro j hj
      rw [hids] at hj
      exact hlt _ (List.mem_filter.1 hj).1
  · exact ⟨⟨hiff, hnl, hnd⟩, hlt⟩

/-- C3: on a store satisfying the invariant, each of Add, Complete and
Delete leaves the dict and the ordered list holding exactly the same
ids, with each id occurring exactly once in the ordered list (and in
the dict). -/
theorem mutations_preserve_consistency (st : TodoApp) (h : storeInv st)
    (title priority now : String) (i j : Int) :
    consistent (add_task st title priority now).1 ∧
    consistent (complete_task st i).1 ∧
    consistent (delete_task st j).1 :=
  ⟨(storeInv_add st h title priority now).1,
   (storeInv_complete st h i).1,
   (storeInv_delete st h j).1⟩

theorem mutations_preserve_consistency_witness :
    storeInv demoApp ∧ consistent (add_task demoApp "walk" "高" "2025-01-02 08:00:00").1 := by
  have h : storeInv demoApp := ⟨⟨fun i => Iff.rfl, by decide, by decide⟩, by decide⟩
  exact ⟨h, (mutations_preserve_consistency demoApp h "walk" "高" "2025-01-02 08:00:00" 1 1).1⟩

theorem complete_next_id (st : TodoApp) (i : Int) :
    (complete_task st i).1.next_id = st.next_id := by
  unfold complete_task
  cases find_task_by_id st i <;> rfl

theorem delete_next_id (st : TodoApp) (i : Int) :
    (delete_task st i).1.next_id = st.next_id := by
  unfold delete_task
  split <;> rfl

theorem storeInv_applyOp (st : TodoApp) (h : storeInv st) (op : Op) :
    storeInv (applyOp st op) := by
  cases op with
  | add title priority now => exact storeInv_add st h title priority now
  | complete i => exact storeInv_complete st h i
  | delete i => exact storeInv_delete st h i

theorem next_id_applyOp (st : TodoApp) (op : Op) :
    st.next_id ≤ (applyOp st op).next_id := by
  cases op with
  | add title priority now => exact le_of_lt (lt_add_one _)
  | complete i => rw [applyOp, complete_next_id]
  | delete i => rw [applyOp, delete_next_id]

theorem applyOps_monotone (ops : List Op) (st : TodoApp) (h : storeInv st) :
    storeInv (applyOps st ops) ∧
    st.next_id ≤ (applyOps st ops).next_id ∧
    (∀ i ∈ assignedIds st ops, st.next_id ≤ i) ∧
    (assignedIds st ops).Pairwise (fun a b => a < b) := by
  induction ops generalizing st with
  | nil => exact ⟨h, le_refl _, by simp [assignedIds], by simp [assignedIds]⟩
  | cons op ops ih =>
      have hstep : storeInv (applyOp st op) := storeInv_applyOp st h op
      obtain ⟨h1, h2, h3, h4⟩ := ih (applyOp st op) hstep
      have happ : applyOps st (op :: ops) = applyOps (applyOp st op) ops := rfl
      cases op with
      | add title priority now =>
          have hids : assignedIds st (Op.add title priority now :: ops) =
              st.next_id :: assignedIds (applyOp st (Op.add title priority now)) ops := rfl
          have hnext : (applyOp st (Op.add title priority now)).next_id = st.next_id + 1 := rfl
          refine ⟨by rwa [happ], ?_, ?_, ?_⟩
          · rw [happ]
            exact le_trans (next_id_applyOp st _) h2
          · rw [hids]
            intro i hi
            rcases List.mem_cons.1 hi with hi | hi
            · omega
            · have := h3 i hi
              omega
          · rw [hids]
            refine List.pairwise_cons.2 ⟨?_, h4⟩
            intro b hb
            have := h3 b hb
            omega
      | complete j =>
          have hids : assignedIds st (Op.complete j :: ops) =
              assignedIds (applyOp st (Op.complete j)) ops := rfl
          have hnext : (applyOp st (Op.complete j)).next_id = st.next_id :=
            complete_next_id st j
          refine ⟨by rwa [happ], ?_, ?_, ?_⟩
          · rw [happ]
            exact le_trans (next_id_applyOp st _) h2
          · rw [hids, ← hnext]
            exact h3
          · rw [hids]
            exact h4
      | delete j =>
          have hids : assignedIds st (Op.delete j :: ops) =
              assignedIds (applyOp st (Op.delete j)) ops := rfl
          have hnext : (applyOp st (Op.delete j)).next_id = st.next_id :=
            delete_next_id st j
          refine ⟨by rwa [happ], ?_, ?_, ?_⟩
          · rw [happ]
            exact le_trans (next_id_applyOp st _) h2
          · rw [hids, ← hnext]
            exact h3
          · rw [hids]
            exact h4

theorem storeInv_emptyApp : storeInv emptyApp :=
  ⟨⟨fun _ => Iff.rfl, List.nodup_nil, List.nodup_nil⟩, by intro i hi; cases hi⟩

/-- C4: a freshly constructed empty store has `next_id = 1`; along any
sequence of Add/Complete/Delete operations the ids handed out by the
adds are strictly increasing (each is greater than all earlier ones),
and at every reachable store `next_id` exceeds every id present. -/
theorem add_ids_strictly_increasing (ops : List Op) :
    emptyApp.next_id = 1 ∧
    (assignedIds emptyApp ops).Pairwise (fun a b => a < b) ∧
    ∀ i ∈ listIds (applyOps emptyApp ops), i < (applyOps emptyApp ops).next_id := by
  obtain ⟨⟨_, hbound⟩, _, _, hpair⟩ := applyOps_monotone ops emptyApp storeInv_emptyApp
  exact ⟨rfl, hpair, hbound⟩

theorem add_ids_strictly_increasing_witness :
    (assignedIds emptyApp
        [Op.add "a" "高" "d1", Op.delete 1, Op.add "b" "低" "d2"]).Pairwise
      (fun a b => a < b) ∧
    assignedIds emptyApp [Op.add "a" "高" "d1", Op.delete 1, Op.add "b" "低" "d2"] = [1, 2] :=
  ⟨(add_ids_strictly_increasing [Op.add "a" "高" "d1", Op.delete 1, Op.add "b" "低" "d2"]).2.1,
   by decide⟩

theorem dictLookup_cons (kv : Int × Task) (tl : List (Int × Task)) (k : Int) :
    dictLookup (kv :: tl) k = if kv.1 = k then some kv.2 else dictLookup tl k := by
  by_cases h : kv.1 = k
  · rw [if_pos h]
    unfold dictLookup
    rw [List.find?_cons_of_pos _ (by simp [h])]
    rfl
  · rw [if_neg h]
    unfold dictLookup
    rw [List.find?_cons_of_neg _ (by simp [h])]

theorem mem_of_dictLookup {d : List (Int × Task)} {k : Int} {t : Task}
    (h : dictLookup d k = some t) : k ∈ dictKeys d := by
  induction d with
  | nil => cases h
  | cons kv tl ih =>
      rw [dictLookup_cons] at h
      by_cases hk : kv.1 = k
      · show k ∈ kv.1 :: dictKeys tl
        simp [hk]
      · rw [if_neg hk] at h
        exact List.mem_cons_of_mem _ (ih h)

theorem dictLookup_setCompleted (d : List (Int × Task)) (k : Int) :
    dictLookup (d.map fun kv => if kv.1 = k then (kv.1, setCompleted kv.2) else kv) k =
      (dictLookup d k).map setCompleted := by
  induction d with
  | nil => rfl
  | cons kv tl ih =>
      by_cases h : kv.1 = k <;>
        simp [dictLookup_cons, h, ih]

/-- The success branch of `complete_task`: the flag is set on the record
under the looked-up id, visible through the dict, and the list is the
pointwise update. -/
theorem complete_found (st : TodoApp) (i : Int) (t : Task)
    (ht : find_task_by_id st i = some t) :
    (complete_task st i).2 = true ∧
    find_task_by_id (complete_task st i).1 i = some (setCompleted t) ∧
    (complete_task st i).1.tasks_list =
      st.tasks_list.map (fun u => if u.id = i then setCompleted u else u) := by
  unfold complete_task
  rw [ht]
  refine ⟨rfl, ?_, rfl⟩
  show dictLookup (st.tasks_dict.map _) i = _
  rw [dictLookup_setCompleted]
  rw [show dictLookup st.tasks_dict i = some t from ht]
  rfl

/-- C5: completing a present id reports success and sets `completed` on
the shared record, visible through both the dict and the ordered list; a
second Complete on the same id again reports success and keeps
`completed = true`; completing an absent id reports "task not found" and
changes nothing. -/
theorem complete_task_spec (st : TodoApp) (i : Int) (hc : consistent st) :
    ((∃ t, find_task_by_id st i = some t) →
      (complete_task st i).2 = true ∧
      (∃ u, find_task_by_id (complete_task st i).1 i = some u ∧ u.completed = true) ∧
      (∃ u, u ∈ (complete_task st i).1.tasks_list ∧ u.id = i ∧ u.completed = true) ∧
      (complete_task (complete_task st i).1 i).2 = true ∧
      (∃ u, find_task_by_id (complete_task (complete_task st i).1 i).1 i = some u ∧
          u.completed = true)) ∧
    (find_task_by_id st i = none → complete_task st i = (st, false)) := by
  constructor
  · rintro ⟨t, ht⟩
    obtain ⟨hb, hl, hlist⟩ := complete_found st i t ht
    obtain ⟨hb2, hl2, _⟩ := complete_found _ i _ hl
    have hmem : i ∈ listIds st := (hc.1 i).1 (mem_of_dictLookup ht)
    obtain ⟨u, hu, hui⟩ := List.mem_map.1 hmem
    refine ⟨hb, ⟨setCompleted t, hl, rfl⟩, ?_, hb2,
      ⟨setCompleted (setCompleted t), hl2, rfl⟩⟩
    refine ⟨setCompleted u, ?_, ?_, rfl⟩
    · rw [hlist]
      have he : (if u.id = i then setCompleted u else u) = setCompleted u := if_pos hui
      exact he ▸ List.mem_map_of_mem _ hu
    · show (setCompleted u).id = i
      simpa [setCompleted] using hui
  · intro h
    unfold complete_task
    rw [h]

theorem complete_task_spec_witness :
    (complete_task demoApp 1).2 = true ∧
    (∃ u, find_task_by_id (complete_task demoApp 1).1 1 = some u ∧ u.completed = true) := by
  have hc : consistent demoApp := ⟨fun i => Iff.rfl, by decide, by decide⟩
  obtain ⟨h1, h2, _⟩ := (complete_task_spec demoApp 1 hc).1 ⟨demoTask1, rfl⟩
  exact ⟨h1, h2⟩

/-- `complete_task` either leaves the list untouched (not found) or
updates the record with the matching id in place. -/
theorem complete_tasks_list (st : TodoApp) (i : Int) :
    (complete_task st i).1.tasks_list = st.tasks_list ∨
    (complete_task st i).1.tasks_list =
      st.tasks_list.map (fun u => if u.id = i then setCompleted u else u) := by
  unfold complete_task
  cases find_task_by_id st i
  · exact Or.inl rfl
  · exact Or.inr rfl

/-- `delete_task` either leaves the list untouched (not found) or
filters the id out. -/
theorem delete_tasks_list (st : TodoApp) (i : Int) :
    (delete_task st i).1.tasks_list = st.tasks_list ∨
    (delete_task st i).1.tasks_list =
      st.tasks_list.filter (fun t => decide (t.id ≠ i)) := by
  unfold delete_task
  split
  · exact Or.inr rfl
  · exact Or.inl rfl

theorem cliStep_titles (st : TodoApp) (h : ∀ t ∈ st.tasks_list, t.title ≠ "")
    (op : CliOp) : ∀ t ∈ (cliStep st op).tasks_list, t.title ≠ "" := by
  cases op with
  | add rawTitle rawPriority now =>
      show ∀ t ∈ (cliAdd st rawTitle rawPriority now).tasks_list, _
      unfold cliAdd
      split
      · exact h
      · split
        · rename_i hne _
          intro t htm
          rcases List.mem_append.1 htm with hm | hm
          · exact h t hm
          · simp only [List.mem_singleton] at hm
            subst hm
            exact hne
        · exact h
  | complete i =>
      show ∀ t ∈ (complete_task st i).1.tasks_list, _
      intro t htm
      rcases complete_tasks_list st i with hl | hl
      · rw [hl] at htm
        exact h t htm
      · rw [hl] at htm
        obtain ⟨v, hv, hvt⟩ := List.mem_map.1 htm
        subst hvt
        by_cases hid : v.id = i
        · rw [if_pos hid]
          exact h v hv
        · rw [if_neg hid]
          exact h v hv
  | delete i =>
      show ∀ t ∈ (delete_task st i).1.tasks_list, _
      intro t htm
      rcases delete_tasks_list st i with hl | hl
      · rw [hl] at htm
        exact h t htm
      · rw [hl] at htm
        exact h t (List.mem_filter.1 htm).1

theorem cliRun_titles (ops : List CliOp) (st : TodoApp)
    (h : ∀ t ∈ st.tasks_list, t.title ≠ "") :
    ∀ t ∈ (cliRun st ops).tasks_list, t.title ≠ "" := by
  induction ops generalizing st with
  | nil => exact h
  | cons op ops ih => exact ih (cliStep st op) (cliStep_titles st h op)

/-- C9: starting from the empty store, any sequence of CLI interactions
leaves only tasks with non-empty titles: the menu-1 validation rejects
an empty (stripped) title before `add_task` mutates anything, and
Complete/Delete never change a title. -/
theorem cli_titles_nonempty (ops : List CliOp) :
    ∀ t ∈ (cliRun emptyApp ops).tasks_list, t.title ≠ "" :=
  cliRun_titles ops emptyApp (by intro t ht; cases ht)

theorem cli_titles_nonempty_witness :
    (⟨1, "Buy milk", "高", false, "d"⟩ : Task) ∈
        (cliRun emptyApp [CliOp.add "Buy milk" "高" "d"]).tasks_list ∧
    (⟨1, "Buy milk", "高", false, "d"⟩ : Task).title ≠ "" :=
  ⟨by decide, cli_titles_nonempty [CliOp.add "Buy milk" "高" "d"] _ (by decide)⟩

/-- C10: the sort key lookup `priority_order[task["priority"]]` is
unguarded: a store holding any task whose priority is outside
`{"高", "中", "低"}` makes a full `list_tasks` and `sort_by_priority`
raise `KeyError` (modelled by `none`); conversely they are total
whenever every stored priority is one of the three allowed values. -/
theorem priority_lookup_unguarded (st : TodoApp) :
    ((∃ t, t ∈ st.tasks_list ∧ priority_order t.priority = none) →
      list_tasks st none = none ∧ sort_by_priority st = none) ∧
    ((∀ t ∈ st.tasks_list, (priority_order t.priority).isSome) →
      (list_tasks st none).isSome ∧ (sort_by_priority st).isSome) := by
  constructor
  · rintro ⟨t, ht, hbad⟩
    have hne : st.tasks_list.isEmpty = false :=
      List.isEmpty_eq_false.2 (List.ne_nil_of_mem ht)
    have hall : st.tasks_list.all (fun t => (priority_order t.priority).isSome) = false := by
      cases hA : st.tasks_list.all (fun t => (priority_order t.priority).isSome) with
      | false => rfl
      | true =>
          have := List.all_eq_true.1 hA t ht
          rw [hbad] at this
          cases this
    constructor
    · simp [list_tasks, hne, tasksToShow, hall]
    · simp [sort_by_priority, hall]
  · intro hval
    have hall : st.tasks_list.all (fun t => (priority_order t.priority).isSome) = true :=
      List.all_eq_true.2 hval
    constructor
    · by_cases hemp : st.tasks_list.isEmpty <;>
        simp [list_tasks, hemp, tasksToShow, hall]
    · simp [sort_by_priority, hall]

theorem priority_lookup_unguarded_witness :
    list_tasks badApp none = none ∧ sort_by_priority badApp = none :=
  (priority_lookup_unguarded badApp).1 ⟨badTask, by decide, by decide⟩

/-! ### Stability of the priority sort -/

theorem filter_rank_orderedInsert (v : Nat) (a : Task) (s : List Task) :
    (List.orderedInsert taskLe a s).filter (fun x => decide (taskRank x = v)) =
      if taskRank a = v then a :: s.filter (fun x => decide (taskRank x = v))
      else s.filter (fun x => decide (taskRank x = v)) := by
  induction s with
  | nil =>
      by_cases h : taskRank a = v
      · rw [if_pos h]
        simp [List.orderedInsert, List.filter, h]
      · rw [if_neg h]
        simp [List.orderedInsert, List.filter, h]
  | cons b s ih =>
      by_cases hab : taskLe a b
      · rw [List.orderedInsert_of_le taskLe s hab]
        by_cases h : taskRank a = v <;> simp [List.filter_cons, h]
      · have hba : taskRank b < taskRank a := Nat.lt_of_not_le (fun hle => hab hle)
        have hins : List.orderedInsert taskLe a (b :: s) =
            b :: List.orderedInsert taskLe a s := by
          simp [List.orderedInsert, hab]
        rw [hins, List.filter_cons, ih]
        by_cases hav : taskRank a = v
        · have hbv : ¬ taskRank b = v := by omega
          simp [hav, hbv, List.filter_cons]
        · by_cases hbv : taskRank b = v <;> simp [hav, hbv, List.filter_cons]

theorem filter_rank_insertionSort (v : Nat) (l : List Task) :
    (List.insertionSort taskLe l).filter (fun x => decide (taskRank x = v)) =
      l.filter (fun x => decide (taskRank x = v)) := by
  induction l with
  | nil => rfl
  | cons a l ih =>
      show (List.orderedInsert taskLe a (List.insertionSort taskLe l)).filter _ = _
      rw [filter_rank_orderedInsert]
      simp only [ih]
      rw [List.filter_cons]
      by_cases h : taskRank a = v <;> simp [h]

theorem priority_order_inj {p q : String} {n : Nat}
    (hp : priority_order p = some n) (hq : priority_order q = some n) : p = q := by
  unfold priority_order at hp hq
  split_ifs at hp hq <;> simp_all <;> omega

theorem taskRank_eq_iff {t : Task} {p : String} {v : Nat}
    (htv : (priority_order t.priority).isSome) (hpv : priority_order p = some v) :
    t.priority = p ↔ taskRank t = v := by
  constructor
  · intro h
    unfold taskRank
    rw [h, hpv]
    rfl
  · intro h
    obtain ⟨m, hm⟩ := Option.isSome_iff_exists.1 htv
    unfold taskRank at h
    rw [hm] at h
    simp only [Option.getD_some] at h
    subst h
    exact priority_order_inj hm hpv

/-- C1: on a store whose tasks all carry one of the three allowed
priorities, `list_tasks` returns a sequence: it is a permutation of the
tasks selected by the optional priority filter, it is sorted by priority
rank (`高` before `中` before `低`), the sort is stable (for every
priority value the subsequence with that priority equals the filtered
input's, i.e. equal-priority tasks keep their insertion order), and in
particular filtering by `"低"` returns exactly the Low-priority tasks in
insertion order. -/
theorem list_tasks_spec (st : TodoApp) (filter_by : Option String)
    (hvalid : ∀ t ∈ st.tasks_list, (priority_order t.priority).isSome) :
    ∃ l, list_tasks st filter_by = some l ∧
      l.Perm (tasksToShow st filter_by) ∧
      l.Pairwise taskLe ∧
      (∀ p : String, l.filter (fun t => decide (t.priority = p)) =
        (tasksToShow st filter_by).filter (fun t => decide (t.priority = p))) ∧
      list_tasks st (some "低") =
        some (st.tasks_list.filter (fun t => decide (t.priority = "低"))) := by
  have hsub : ∀ (f : Option String), ∀ t ∈ tasksToShow st f, t ∈ st.tasks_list := by
    intro f t ht
    cases f with
    | none => exact ht
    | some p => exact (List.mem_filter.1 ht).1
  have hmain : ∀ (f : Option String),
      (∀ t ∈ tasksToShow st f, (priority_order t.priority).isSome) →
      list_tasks st f = some (List.insertionSort taskLe (tasksToShow st f)) := by
    intro f hv
    by_cases hemp : st.tasks_list.isEmpty
    · have hnil : st.tasks_list = [] := List.isEmpty_iff.1 hemp
      have hshow : tasksToShow st f = [] := by
        cases f <;> simp [tasksToShow, hnil]
      simp [list_tasks, hemp, hshow]
    · have hA : (tasksToShow st f).all (fun t => (priority_order t.priority).isSome) = true :=
        List.all_eq_true.2 hv
      simp [list_tasks, hemp, hA]
  have hvalid2 : ∀ t ∈ tasksToShow st filter_by, (priority_order t.priority).isSome :=
    fun t ht => hvalid t (hsub filter_by t ht)
  have hlow : list_tasks st (some "低") =
      some (st.tasks_list.filter (fun t => decide (t.priority = "低"))) := by
    have hvlow : ∀ t ∈ tasksToShow st (some "低"), (priority_order t.priority).isSome := by
      intro t ht
      have hpe : t.priority = "低" := of_decide_eq_true ((List.mem_filter.1 ht).2)
      rw [hpe]
      rfl
    rw [hmain (some "低") hvlow]
    have hall3 : ∀ t ∈ tasksToShow st (some "低"), taskRank t = 3 := by
      intro t ht
      have hpe : t.priority = "低" := of_decide_eq_true ((List.mem_filter.1 ht).2)
      rw [taskRank, hpe]
      rfl
    have e1 : (List.insertionSort taskLe (tasksToShow st (some "低"))).filter
        (fun x => decide (taskRank x = 3)) =
        List.insertionSort taskLe (tasksToShow st (some "低")) :=
      List.filter_eq_self.2 fun a ha => by
        simp [hall3 a ((List.mem_insertionSort taskLe).1 ha)]
    have e3 : (tasksToShow st (some "低")).filter (fun x => decide (taskRank x = 3)) =
        tasksToShow st (some "低") :=
      List.filter_eq_self.2 fun a ha => by simp [hall3 a ha]
    have : List.insertionSort taskLe (tasksToShow st (some "低")) =
        tasksToShow st (some "低")  := by
      rw [← e1, filter_rank_insertionSort, e3]
    rw [this]
    rfl
  refine ⟨_, hmain filter_by hvalid2, List.perm_insertionSort taskLe _,
    List.sorted_insertionSort taskLe _, ?_, hlow⟩
  intro p
  cases hp : priority_order p with
  | some v =>
      have congr1 : (List.insertionSort taskLe (tasksToShow st filter_by)).filter
          (fun t => decide (t.priority = p)) =
          (List.insertionSort taskLe (tasksToShow st filter_by)).filter
          (fun t => decide (taskRank t = v)) :=
        List.filter_congr fun x hx =>
          decide_eq_decide.2
            (taskRank_eq_iff (hvalid2 x ((List.mem_insertionSort taskLe).1 hx)) hp)
      have congr2 : (tasksToShow st filter_by).filter (fun t => decide (taskRank t = v)) =
          (tasksToShow st filter_by).filter (fun t => decide (t.priority = p)) :=
        List.filter_congr fun x hx =>
          (decide_eq_decide.2 (taskRank_eq_iff (hvalid2 x hx) hp)).symm
      rw [congr1, filter_rank_insertionSort, congr2]
  | none =>
      have left : ∀ x ∈ List.insertionSort taskLe (tasksToShow st filter_by),
          ¬(decide (x.priority = p) = true) := by
        intro x hx hc
        have hpe : x.priority = p := of_decide_eq_true hc
        have hxv := hvalid2 x ((List.mem_insertionSort taskLe).1 hx)
        rw [hpe, hp] at hxv
        cases hxv
      have right : ∀ x ∈ tasksToShow st filter_by, ¬(decide (x.priority = p) = true) := by
        intro x hx hc
        have hpe : x.priority = p := of_decide_eq_true hc
        have hxv := hvalid2 x hx
        rw [hpe, hp] at hxv
        cases hxv
      rw [List.filter_eq_nil_iff.2 left, List.filter_eq_nil_iff.2 right]

theorem list_tasks_spec_witness :
    list_tasks demoApp (some "低") =
      some (demoApp.tasks_list.filter (fun t => decide (t.priority = "低"))) ∧
    demoApp.tasks_list.filter (fun t => decide (t.priority = "低")) = [demoTask2] := by
  obtain ⟨l, -, -, -, -, hlow⟩ := list_tasks_spec demoApp none (by decide)
  exact ⟨hlow, by decide⟩

end Todo
